import Mathlib

/-!
Shallow embedding of `src/removeAnnotations.py`, a utility that strips
nullability annotations (and optionally `@SuppressWarnings(...)`) from the
`.java` files under a directory.

Text is modelled as `List Char`; each character stands for one byte of the
file (Python reads the file with the `us-ascii` codec, which fails as soon
as a byte is ≥ 128, so character codes ≥ 128 model exactly the non-ASCII
bytes).  The six word-annotation regexes `@\bName\b` and the
`@\bSuppressWarnings\b\([^\)]*\)` regex are embedded as left-to-right,
non-overlapping global substitutions, exactly the semantics of `re.sub`
with replacement `''`.  The word-boundary `\b` between `@` (a non-word
character) and the first letter of the name is always satisfied, so only
the trailing boundary after the name has to be checked; for
`SuppressWarnings` the trailing boundary sits before the literal `(`
(a non-word character) and is likewise always satisfied once `(` matches.
-/

namespace RemoveAnnotations

/-- ASCII word characters of the regex class `\w` ( `[A-Za-z0-9_]` ). -/
def isWordChar (c : Char) : Bool := c.isAlphanum || c == '_'

/-- Trailing word boundary `\b` after a name: the next character is absent
or is not a word character. -/
def boundaryOk : List Char → Bool
  | [] => true
  | c :: _ => !(isWordChar c)

/-- Does the regex `@\bname\b` match at the start of `c :: rest`? -/
def wordMatches (name : List Char) (c : Char) (rest : List Char) : Bool :=
  (c == '@') && name.isPrefixOf rest && boundaryOk (rest.drop name.length)

/-- Embedding of `re.sub(r'@\bname\b', '', s)`: delete every non-overlapping occurrence,
scanning left to right. -/
def subWordAnnot (name : List Char) : List Char → List Char
  | [] => []
  | c :: rest =>
    if wordMatches name c rest then subWordAnnot name (rest.drop name.length)
    else c :: subWordAnnot name rest
termination_by s => s.length
decreasing_by
  all_goals simp only [List.length_drop, List.length_cons]
  all_goals omega

/-- Number of matches `re.sub(r'@\bname\b', '', s)` finds (and deletes). -/
def countWordAnnot (name : List Char) : List Char → Nat
  | [] => 0
  | c :: rest =>
    if wordMatches name c rest then countWordAnnot name (rest.drop name.length) + 1
    else countWordAnnot name rest
termination_by s => s.length
decreasing_by
  all_goals simp only [List.length_drop, List.length_cons]
  all_goals omega

/-- The literal part of the SuppressWarnings pattern after the `@` marker:
the exact-case name immediately followed by the opening parenthesis. -/
def swLit : List Char := "SuppressWarnings(".toList

/-- Index of the first `)` — the regex fragment `[^\)]*\)` matches exactly
up to and including this character, and fails when there is none. -/
def findClose : List Char → Option Nat
  | [] => none
  | c :: rest => if c == ')' then some 0 else (findClose rest).map (· + 1)

/-- Embedding of `re.sub(r'@\bSuppressWarnings\b\([^\)]*\)', '', s)`. -/
def subSW : List Char → List Char
  | [] => []
  | c :: rest =>
    if (c == '@') && swLit.isPrefixOf rest then
      match findClose (rest.drop swLit.length) with
      | some k => subSW ((rest.drop swLit.length).drop (k + 1))
      | none => c :: subSW rest
    else c :: subSW rest
termination_by s => s.length
decreasing_by
  all_goals simp only [List.length_drop, List.length_cons]
  all_goals omega

/-- Number of matches of the SuppressWarnings pattern found at
substitution time. -/
def countSW : List Char → Nat
  | [] => 0
  | c :: rest =>
    if (c == '@') && swLit.isPrefixOf rest then
      match findClose (rest.drop swLit.length) with
      | some k => countSW ((rest.drop swLit.length).drop (k + 1)) + 1
      | none => countSW rest
    else countSW rest
termination_by s => s.length
decreasing_by
  all_goals simp only [List.length_drop, List.length_cons]
  all_goals omega

/-- The names of the six always-removed kinds, in the order the source
applies them. -/
def nullableName : List Char := "Nullable".toList
def nonNullName : List Char := "NonNull".toList
def nonnullStrictName : List Char := "Nonnull".toList
def notnullName : List Char := "Notnull".toList
def notNullStrictName : List Char := "NotNull".toList
def monotonicNonNullName : List Char := "MonotonicNonNull".toList

/-- The body of `remove_annotations` between read and write: the six fixed
substitutions, then the conditional SuppressWarnings substitution. -/
def transform (removeSuppressWarnings : Bool) (content : List Char) : List Char :=
  let c1 := subWordAnnot nullableName content
  let c2 := subWordAnnot nonNullName c1
  let c3 := subWordAnnot nonnullStrictName c2
  let c4 := subWordAnnot notnullName c3
  let c5 := subWordAnnot notNullStrictName c4
  let c6 := subWordAnnot monotonicNonNullName c5
  if removeSuppressWarnings then subSW c6 else c6

/-- The global counters of the script.  They are initialised to zero at
module load; `remove_annotations` declares them `global` but its body
contains no statement that assigns or increments any of them, so the run
never changes them. -/
structure Counters where
  nullable : Nat
  nonNull : Nat
  nonnullStrict : Nat
  notnull : Nat
  notNullStrict : Nat
  monotonicNonNull : Nat
  suppressWarnings : Nat
deriving Repr, DecidableEq

/-- The `total_* = 0` initialisations at the top of the script. -/
def initCounters : Counters := ⟨0, 0, 0, 0, 0, 0, 0⟩

/-- Per-kind number of matches found at substitution time: each pattern is
counted on the intermediate text its `re.sub` call actually receives.
This is the quantity the spec asks the implementation to capture; the
script itself never stores it anywhere. -/
def countsOf (removeSuppressWarnings : Bool) (content : List Char) : Counters :=
  let c1 := subWordAnnot nullableName content
  let c2 := subWordAnnot nonNullName c1
  let c3 := subWordAnnot nonnullStrictName c2
  let c4 := subWordAnnot notnullName c3
  let c5 := subWordAnnot notNullStrictName c4
  let c6 := subWordAnnot monotonicNonNullName c5
  { nullable := countWordAnnot nullableName content
    nonNull := countWordAnnot nonNullName c1
    nonnullStrict := countWordAnnot nonnullStrictName c2
    notnull := countWordAnnot notnullName c3
    notNullStrict := countWordAnnot notNullStrictName c4
    monotonicNonNull := countWordAnnot monotonicNonNullName c5
    suppressWarnings := if removeSuppressWarnings then countSW c6 else 0 }

/-- Errors a run can raise.  `decodingError` models `UnicodeDecodeError`
from the `us-ascii` codec; `fileNotFound` models `FileNotFoundError`. -/
inductive PyError where
  | decodingError
  | fileNotFound
deriving Repr, DecidableEq

/-- The filesystem: the files (path, byte content) in `os.walk` order, plus
a log of every write performed, most recent first.  A write event records
the path opened with mode `'w'` and the bytes written. -/
structure FS where
  files : List (String × List Char)
  writes : List (String × List Char)
deriving Repr, DecidableEq

/-- Embedding of `open(path).read()`. -/
def readFile (fs : FS) (p : String) : Option (List Char) :=
  (fs.files.find? (fun e => e.1 == p)).map (fun e => e.2)

/-- Embedding of `open(path, 'w').write(c)`: replace the content stored at `p` and log
the write. -/
def writeFile (fs : FS) (p : String) (c : List Char) : FS :=
  { files := fs.files.map (fun e => if e.1 == p then (p, c) else e)
    writes := (p, c) :: fs.writes }

/-- Embedding of `remove_annotations(file_path, remove_suppress_warnings)`: read with the
`us-ascii` codec (fails on any byte ≥ 128 before anything is written),
transform, write back.  Returns the filesystem after the call together
with the exception it raised, if any; an exception leaves the filesystem
exactly as it was. -/
def removeAnnotationsOp (path : String) (flag : Bool) (fs : FS) :
    FS × Option PyError :=
  match readFile fs path with
  | none => (fs, some .fileNotFound)
  | some content =>
    if content.all (fun c => c.toNat < 128) then
      (writeFile fs path (transform flag content), none)
    else (fs, some .decodingError)

/-- The state threaded through `process_directory`: the filesystem, the
global counters, and the progress lines printed so far. -/
structure RunState where
  fs : FS
  counters : Counters
  progress : List String
deriving Repr, DecidableEq

/-- Embedding of `file.endswith('.java')`, on the character sequence of the name. -/
def hasJavaExt (p : String) : Bool := ".java".toList.isSuffixOf p.toList

/-- The loop body of `process_directory` over the walked file list: a file
whose name ends in `.java` is handed to `remove_annotations` and a
progress line is printed; any other file is skipped.  An exception stops
the loop.  The counters are never touched (the source has no statement
that modifies them). -/
def processFiles (flag : Bool) : List String → RunState → RunState × Option PyError
  | [], st => (st, none)
  | p :: ps, st =>
    if hasJavaExt p then
      match removeAnnotationsOp p flag st.fs with
      | (fs', none) =>
          processFiles flag ps
            { st with fs := fs', progress := st.progress ++ ["Processed " ++ p] }
      | (fs', some e) => ({ st with fs := fs' }, some e)
    else processFiles flag ps st

/-- The summary block printed after traversal: six per-kind lines always,
the `@SuppressWarnings` line only when the flag was passed. -/
structure Summary where
  nullable : Nat
  nonNull : Nat
  nonnullStrict : Nat
  notnull : Nat
  notNullStrict : Nat
  monotonicNonNull : Nat
  suppressWarnings : Option Nat
deriving Repr, DecidableEq

def mkSummary (flag : Bool) (c : Counters) : Summary :=
  { nullable := c.nullable
    nonNull := c.nonNull
    nonnullStrict := c.nonnullStrict
    notnull := c.notnull
    notNullStrict := c.notNullStrict
    monotonicNonNull := c.monotonicNonNull
    suppressWarnings := if flag then some c.suppressWarnings else none }

/-- Outcome of one invocation of the script. -/
structure RunResult where
  state : RunState
  err : Option PyError
  summary : Option Summary
deriving Repr, DecidableEq

/-- Embedding of `process_directory(src, flag)` followed by the summary prints: walk the
files, process each `.java` one; the summary is printed only when the
traversal finished without an unhandled exception.  The counts it shows
are the untouched globals. -/
def mainRun (flag : Bool) (fs : FS) : RunResult :=
  let res := processFiles flag (fs.files.map (fun e => e.1)) ⟨fs, initCounters, []⟩
  { state := res.1
    err := res.2
    summary := match res.2 with
      | none => some (mkSummary flag res.1.counters)
      | some _ => none }

/-! ### Concrete inputs used to instantiate the claims -/

/-- A one-annotation file: `@Nullable x`. -/
def nullableText : List Char := "@Nullable x".toList

def fsNullable : FS := ⟨[("A.java", nullableText)], []⟩

/-- The spec's SuppressWarnings example: `@SuppressWarnings("unchecked") void f() {}`. -/
def swText : List Char := "@SuppressWarnings(\"unchecked\") void f() \x7b\x7d".toList

def fsSW : FS := ⟨[("A.java", swText)], []⟩

/-- The four case-variant annotations in one file, plus a longer identifier
`@NonNullable` that no pattern may match inside. -/
def caseText : List Char := "@NonNull a @Nonnull b @NotNull c @Notnull d @NonNullable".toList

def fsCase : FS := ⟨[("A.java", caseText)], []⟩

/-- Annotation-free text. -/
def cleanText : List Char := "class A \x7bint x;\x7d".toList

def fsClean : FS := ⟨[("A.java", cleanText)], []⟩

/-- Bytes of a file holding a byte outside 7-bit ASCII (0xE9). -/
def badText : List Char := ['h', Char.ofNat 233, 'i']

def fsBad : FS := ⟨[("Bad.java", badText)], []⟩

/-! ### Unfolding lemmas for the substitution scanners -/

theorem subWA_cons_pos (name : List Char) (c : Char) (rest : List Char)
    (h : wordMatches name c rest = true) :
    subWordAnnot name (c :: rest) = subWordAnnot name (rest.drop name.length) := by
  rw [subWordAnnot, if_pos h]

theorem subWA_cons_neg (name : List Char) (c : Char) (rest : List Char)
    (h : wordMatches name c rest = false) :
    subWordAnnot name (c :: rest) = c :: subWordAnnot name rest := by
  rw [subWordAnnot, if_neg (by simp [h])]

theorem countWA_cons_pos (name : List Char) (c : Char) (rest : List Char)
    (h : wordMatches name c rest = true) :
    countWordAnnot name (c :: rest) = countWordAnnot name (rest.drop name.length) + 1 := by
  rw [countWordAnnot, if_pos h]

theorem countWA_cons_neg (name : List Char) (c : Char) (rest : List Char)
    (h : wordMatches name c rest = false) :
    countWordAnnot name (c :: rest) = countWordAnnot name rest := by
  rw [countWordAnnot, if_neg (by simp [h])]

theorem subSW_cons_match (c : Char) (rest : List Char) (k : Nat)
    (hc : ((c == '@') && swLit.isPrefixOf rest) = true)
    (hf : findClose (rest.drop swLit.length) = some k) :
    subSW (c :: rest) = subSW ((rest.drop swLit.length).drop (k + 1)) := by
  rw [subSW, if_pos hc, hf]

theorem subSW_cons_noclose (c : Char) (rest : List Char)
    (hc : ((c == '@') && swLit.isPrefixOf rest) = true)
    (hf : findClose (rest.drop swLit.length) = none) :
    subSW (c :: rest) = c :: subSW rest := by
  rw [subSW, if_pos hc, hf]

theorem subSW_cons_nomatch (c : Char) (rest : List Char)
    (h : ((c == '@') && swLit.isPrefixOf rest) = false) :
    subSW (c :: rest) = c :: subSW rest := by
  rw [subSW, if_neg (by simp [h])]

theorem countSW_cons_match (c : Char) (rest : List Char) (k : Nat)
    (hc : ((c == '@') && swLit.isPrefixOf rest) = true)
    (hf : findClose (rest.drop swLit.length) = some k) :
    countSW (c :: rest) = countSW ((rest.drop swLit.length).drop (k + 1)) + 1 := by
  rw [countSW, if_pos hc, hf]

theorem countSW_cons_noclose (c : Char) (rest : List Char)
    (hc : ((c == '@') && swLit.isPrefixOf rest) = true)
    (hf : findClose (rest.drop swLit.length) = none) :
    countSW (c :: rest) = countSW rest := by
  rw [countSW, if_pos hc, hf]

theorem countSW_cons_nomatch (c : Char) (rest : List Char)
    (h : ((c == '@') && swLit.isPrefixOf rest) = false) :
    countSW (c :: rest) = countSW rest := by
  rw [countSW, if_neg (by simp [h])]

/-! ### A pass that finds no match leaves the text unchanged -/

theorem subWA_of_count0 (name : List Char) :
    ∀ T : List Char, countWordAnnot name T = 0 → subWordAnnot name T = T
  | [], _ => by rw [subWordAnnot]
  | c :: rest, h => by
    cases hm : wordMatches name c rest with
    | true =>
        rw [countWA_cons_pos name c rest hm] at h
        exact absurd h (Nat.succ_ne_zero _)
    | false =>
        rw [countWA_cons_neg name c rest hm] at h
        rw [subWA_cons_neg name c rest hm, subWA_of_count0 name rest h]

theorem subSW_of_count0 :
    ∀ T : List Char, countSW T = 0 → subSW T = T
  | [], _ => by rw [subSW]
  | c :: rest, h => by
    cases hc : ((c == '@') && swLit.isPrefixOf rest) with
    | true =>
        cases hf : findClose (rest.drop swLit.length) with
        | some k =>
            rw [countSW_cons_match c rest k hc hf] at h
            exact absurd h (Nat.succ_ne_zero _)
        | none =>
            rw [countSW_cons_noclose c rest hc hf] at h
            rw [subSW_cons_noclose c rest hc hf, subSW_of_count0 rest h]
    | false =>
        rw [countSW_cons_nomatch c rest hc] at h
        rw [subSW_cons_nomatch c rest hc, subSW_of_count0 rest h]

/-! ### List facts used to analyse the SuppressWarnings pattern -/

theorem isPrefixOf_append_same (l l₁ l₂ : List Char) :
    (l ++ l₁).isPrefixOf (l ++ l₂) = l₁.isPrefixOf l₂ := by
  induction l with
  | nil => rfl
  | cons c l ih => simp [List.isPrefixOf, ih]

theorem isPrefixOf_append_self (l l₂ : List Char) :
    l.isPrefixOf (l ++ l₂) = true := by
  have h0 := isPrefixOf_append_same l [] l₂
  rw [List.append_nil] at h0
  exact h0.trans (by simp [List.isPrefixOf])

theorem findClose_append_no_close (args post : List Char)
    (h : args.all (fun c => c != ')') = true) :
    findClose (args ++ ')' :: post) = some args.length := by
  induction args with
  | nil => simp [findClose]
  | cons c args ih =>
    simp only [List.all_cons, Bool.and_eq_true, bne_iff_ne] at h
    have hc : (c == ')') = false := by simp [h.1]
    simp only [List.cons_append, findClose, hc, Bool.false_eq_true, if_false]
    simp [List.append_eq, ih h.2]

theorem drop_append_cons (args post : List Char) (x : Char) :
    (args ++ x :: post).drop (args.length + 1) = post := by
  induction args with
  | nil => simp
  | cons c args ih =>
    simp only [List.cons_append, List.length_cons, List.drop_succ_cons]
    exact ih

/-- A block of characters that contains no `@` marker is copied through the
SuppressWarnings substitution unchanged, scanning continuing after it. -/
theorem subSW_append_no_marker (l post : List Char) (h : ∀ c ∈ l, c ≠ '@') :
    subSW (l ++ post) = l ++ subSW post := by
  induction l with
  | nil => rfl
  | cons c l ih =>
    have hc : (c == '@') = false := by
      simp only [beq_eq_false_iff_ne, ne_eq]
      exact h c (List.mem_cons_self c l)
    rw [List.cons_append, subSW_cons_nomatch c (l ++ post) (by simp [hc]),
      ih (fun d hd => h d (List.mem_cons_of_mem c hd)), List.cons_append]

/-- Claim C4: with `removeSuppressWarnings` set, the removed
SuppressWarnings span is the `@` marker, the exact name, and a
parenthesized argument body containing no close-parenthesis; the match
ends at the first `)`, so a nested parenthesis inside the body is never
consumed.  Deleting the span, substitution continues right after that
first `)`. -/
theorem c4_sw_match_ends_at_first_close (args post : List Char)
    (h : args.all (fun c => c != ')') = true) :
    subSW ('@' :: ("SuppressWarnings".toList ++ ('(' :: (args ++ ')' :: post))))
      = subSW post := by
  have hsw : swLit = "SuppressWarnings".toList ++ ['('] := by decide
  have hrest : "SuppressWarnings".toList ++ ('(' :: (args ++ ')' :: post))
      = swLit ++ (args ++ ')' :: post) := by
    rw [hsw]
    simp
  have hpre : swLit.isPrefixOf (swLit ++ (args ++ ')' :: post)) = true :=
    isPrefixOf_append_self swLit _
  have hdrop : (swLit ++ (args ++ ')' :: post)).drop swLit.length
      = args ++ ')' :: post := List.drop_left _ _
  have hfind : findClose ((swLit ++ (args ++ ')' :: post)).drop swLit.length)
      = some args.length := by
    rw [hdrop]
    exact findClose_append_no_close args post h
  rw [hrest, subSW_cons_match '@' (swLit ++ (args ++ ')' :: post)) args.length
      (by simp [hpre]) hfind, hdrop, drop_append_cons]

/-- Claim C10: a bare `@SuppressWarnings` that is not immediately followed
by an opening parenthesis is never removed, even with the flag set: the
pattern needs the parenthesized span, so the occurrence is copied to the
output verbatim and scanning continues after it. -/
theorem c10_bare_suppress_warnings_kept (post : List Char)
    (h : ∀ c, post.head? = some c → c ≠ '(') :
    subSW ('@' :: ("SuppressWarnings".toList ++ post))
      = '@' :: ("SuppressWarnings".toList ++ subSW post) := by
  have hsw : swLit = "SuppressWarnings".toList ++ ['('] := by decide
  have hpre : swLit.isPrefixOf ("SuppressWarnings".toList ++ post) = false := by
    rw [hsw, isPrefixOf_append_same]
    cases post with
    | nil => rfl
    | cons c cs =>
      have hc : (('(' : Char) == c) = false :=
        beq_eq_false_iff_ne.mpr (Ne.symm (h c rfl))
      simp [List.isPrefixOf, hc]
  rw [subSW_cons_nomatch '@' ("SuppressWarnings".toList ++ post)
      (by rw [show (('@' == '@') : Bool) = true from rfl, Bool.true_and]; exact hpre),
    subSW_append_no_marker _ _ (by decide)]

/-! ### Filesystem lemmas -/

theorem find?_write_ne (l : List (String × List Char)) (q p : String) (c : List Char)
    (h : (q == p) = false) :
    (l.map (fun e => if e.1 == q then (q, c) else e)).find? (fun e => e.1 == p)
      = l.find? (fun e => e.1 == p) := by
  induction l with
  | nil => rfl
  | cons e l ih =>
    by_cases hq : e.1 = q
    · have hq' : (e.1 == q) = true := beq_iff_eq.mpr hq
      have hep : (e.1 == p) = false := by
        rw [hq]
        exact h
      simp only [List.map_cons, hq', if_true, List.find?, h, hep, ih]
    · have hq' : (e.1 == q) = false := beq_eq_false_iff_ne.mpr hq
      by_cases hp : e.1 = p
      · have hp' : (e.1 == p) = true := beq_iff_eq.mpr hp
        simp only [List.map_cons, hq', if_false, Bool.false_eq_true, List.find?, hp']
      · have hp' : (e.1 == p) = false := beq_eq_false_iff_ne.mpr hp
        simp only [List.map_cons, hq', if_false, Bool.false_eq_true, List.find?, hp', ih]

theorem find?_write_self (l : List (String × List Char)) (q : String) (c : List Char)
    (h : (l.find? (fun e => e.1 == q)).isSome = true) :
    (l.map (fun e => if e.1 == q then (q, c) else e)).find? (fun e => e.1 == q)
      = some (q, c) := by
  induction l with
  | nil => simp [List.find?] at h
  | cons e l ih =>
    by_cases hq : e.1 = q
    · have hq' : (e.1 == q) = true := beq_iff_eq.mpr hq
      simp [List.find?, hq']
    · have hq' : (e.1 == q) = false := beq_eq_false_iff_ne.mpr hq
      simp only [List.map_cons, List.find?, hq', Bool.false_eq_true, if_false] at h ⊢
      exact ih h

theorem find?_isSome_of_mem_keys (l : List (String × List Char)) (p : String)
    (h : p ∈ l.map (fun e => e.1)) :
    (l.find? (fun e => e.1 == p)).isSome = true := by
  induction l with
  | nil => simp at h
  | cons e l ih =>
    by_cases hp : e.1 = p
    · simp [List.find?, beq_iff_eq.mpr hp]
    · have hp' : (e.1 == p) = false := beq_eq_false_iff_ne.mpr hp
      simp only [List.map_cons] at h
      rcases List.mem_cons.mp h with he | he
      · exact absurd he.symm hp
      · simp only [List.find?, hp']
        exact ih he

theorem readFile_writeFile_ne (fs : FS) (q p : String) (c : List Char) (h : p ≠ q) :
    readFile (writeFile fs q c) p = readFile fs p := by
  simp only [readFile, writeFile]
  rw [find?_write_ne fs.files q p c (beq_eq_false_iff_ne.mpr (Ne.symm h))]

theorem readFile_writeFile_self (fs : FS) (q : String) (c : List Char)
    (h : (readFile fs q).isSome = true) :
    readFile (writeFile fs q c) q = some c := by
  simp only [readFile, Option.isSome_map'] at h
  simp only [readFile, writeFile]
  rw [find?_write_self fs.files q c h]
  rfl

theorem readFile_writeFile_isSome (fs : FS) (q r : String) (c : List Char)
    (h : (readFile fs r).isSome = true) :
    (readFile (writeFile fs q c) r).isSome = true := by
  by_cases hrq : r = q
  · subst hrq
    rw [readFile_writeFile_self fs r c h]
    rfl
  · rw [readFile_writeFile_ne fs q r c hrq]
    exact h

theorem readFile_isSome_of_mem (fs : FS) (p : String)
    (h : p ∈ fs.files.map (fun e => e.1)) :
    (readFile fs p).isSome = true := by
  simp only [readFile, Option.isSome_map']
  exact find?_isSome_of_mem_keys fs.files p h

/-! ### Behaviour of one `remove_annotations` call -/

theorem removeAnnotationsOp_success (p : String) (flag : Bool) (fs fs' : FS)
    (h : removeAnnotationsOp p flag fs = (fs', none)) :
    ∃ content, readFile fs p = some content ∧
      content.all (fun c => c.toNat < 128) = true ∧
      fs' = writeFile fs p (transform flag content) := by
  cases hr : readFile fs p with
  | none =>
      simp [removeAnnotationsOp, hr] at h
  | some content =>
      by_cases ha : content.all (fun c => c.toNat < 128) = true
      · have hx := h
        simp [removeAnnotationsOp, hr, ha] at hx
        exact ⟨content, rfl, ha, hx.symm⟩
      · simp [removeAnnotationsOp, hr, ha] at h

theorem removeAnnotationsOp_failure (p : String) (flag : Bool) (fs fs' : FS)
    (e : PyError) (h : removeAnnotationsOp p flag fs = (fs', some e)) :
    fs' = fs := by
  cases hr : readFile fs p with
  | none =>
      simp only [removeAnnotationsOp, hr, Prod.mk.injEq] at h
      exact h.1.symm
  | some content =>
      by_cases ha : content.all (fun c => c.toNat < 128) = true
      · simp [removeAnnotationsOp, hr, ha] at h
      · have hx := h
        simp [removeAnnotationsOp, hr, ha] at hx
        exact hx.1.symm

/-! ### A non-ASCII selected file makes the traversal stop -/

theorem processFiles_halts (flag : Bool) :
    ∀ (ps : List String) (st : RunState) (p : String) (bs : List Char),
      p ∈ ps → hasJavaExt p = true →
      readFile st.fs p = some bs →
      bs.all (fun c => c.toNat < 128) = false →
      (∀ q ∈ ps, (readFile st.fs q).isSome = true) →
      (processFiles flag ps st).2 = some PyError.decodingError ∧
      readFile (processFiles flag ps st).1.fs p = some bs
  | [], _, p, _, hmem, _, _, _, _ => absurd hmem (List.not_mem_nil p)
  | q :: ps, st, p, bs, hmem, hjava, hread, hbad, hall => by
    by_cases hqj : hasJavaExt q = true
    · obtain ⟨cq, hcq⟩ :=
        Option.isSome_iff_exists.mp (hall q (List.mem_cons_self q ps))
      by_cases hqa : cq.all (fun c => c.toNat < 128) = true
      · have hqp : q ≠ p := by
          intro he
          rw [he, hread] at hcq
          rw [← Option.some_inj.mp hcq] at hqa
          rw [hqa] at hbad
          exact absurd hbad (by decide)
        have hop : removeAnnotationsOp q flag st.fs
            = (writeFile st.fs q (transform flag cq), none) := by
          simp [removeAnnotationsOp, hcq, hqa]
        have step : processFiles flag (q :: ps) st
            = processFiles flag ps
                ⟨writeFile st.fs q (transform flag cq), st.counters,
                  st.progress ++ ["Processed " ++ q]⟩ := by
          rw [processFiles, if_pos hqj, hop]
        rw [step]
        exact processFiles_halts flag ps _ p bs
          (List.mem_of_ne_of_mem (fun he => hqp he.symm) hmem) hjava
          ((readFile_writeFile_ne st.fs q p (transform flag cq)
            (fun he => hqp he.symm)).trans hread) hbad
          (fun r hr => readFile_writeFile_isSome st.fs q r (transform flag cq)
            (hall r (List.mem_cons_of_mem q hr)))
      · have hop : removeAnnotationsOp q flag st.fs
            = (st.fs, some PyError.decodingError) := by
          simp [removeAnnotationsOp, hcq, hqa]
        have step : processFiles flag (q :: ps) st
            = ({ st with fs := st.fs }, some PyError.decodingError) := by
          rw [processFiles, if_pos hqj, hop]
        rw [step]
        exact ⟨rfl, hread⟩
    · have hqp : p ≠ q := fun he => hqj (he ▸ hjava)
      have step : processFiles flag (q :: ps) st = processFiles flag ps st := by
        rw [processFiles, if_neg (by simp [hqj])]
      rw [step]
      exact processFiles_halts flag ps st p bs
        (List.mem_of_ne_of_mem hqp hmem) hjava hread hbad
        (fun r hr => hall r (List.mem_cons_of_mem q hr))

theorem string_append_left_cancel (s t u : String) (h : s ++ t = s ++ u) : t = u := by
  have hd := congrArg String.data h
  rw [String.data_append, String.data_append] at hd
  exact String.ext (List.append_cancel_left hd)

/-- Claim C2: a selected file whose bytes contain one outside the 7-bit
ASCII range makes `remove_annotations` raise a DecodingError before any
write (the filesystem, write log included, is returned unchanged), and
the whole run halts with that error, printing no final summary and
leaving the file's stored content as it was. -/
theorem c2_non_ascii_fails_without_write (flag : Bool) (fs : FS) (p : String)
    (bs : List Char)
    (hread : readFile fs p = some bs)
    (hbad : bs.all (fun c => c.toNat < 128) = false)
    (hjava : hasJavaExt p = true)
    (hmem : p ∈ fs.files.map (fun e => e.1)) :
    removeAnnotationsOp p flag fs = (fs, some PyError.decodingError) ∧
    (mainRun flag fs).err = some PyError.decodingError ∧
    (mainRun flag fs).summary = none ∧
    readFile (mainRun flag fs).state.fs p = some bs := by
  have hrun := processFiles_halts flag (fs.files.map (fun e => e.1))
      ⟨fs, initCounters, []⟩ p bs hmem hjava hread hbad
      (fun q hq => readFile_isSome_of_mem fs q hq)
  refine ⟨?_, ?_, ?_, ?_⟩
  · simp [removeAnnotationsOp, hread, hbad]
  · simp only [mainRun]
    exact hrun.1
  · simp only [mainRun]
    rw [hrun.1]
  · simp only [mainRun]
    exact hrun.2

/-- Witness for C2 at a concrete file `Bad.java` whose second byte is 0xE9. -/
theorem c2_witness :
    readFile fsBad "Bad.java" = some badText ∧
    badText.all (fun c => c.toNat < 128) = false ∧
    hasJavaExt "Bad.java" = true ∧
    removeAnnotationsOp "Bad.java" false fsBad = (fsBad, some PyError.decodingError) ∧
    (mainRun false fsBad).summary = none :=
  ⟨by decide, by decide, by decide,
    (c2_non_ascii_fails_without_write false fsBad "Bad.java" badText
      (by decide) (by decide) (by decide) (by decide)).1,
    (c2_non_ascii_fails_without_write false fsBad "Bad.java" badText
      (by decide) (by decide) (by decide) (by decide)).2.2.1⟩

/-! ### Frame facts about the traversal -/

theorem processFiles_frame (flag : Bool) :
    ∀ (ps : List String) (st : RunState),
      (processFiles flag ps st).1.counters = st.counters ∧
      (∀ e ∈ (processFiles flag ps st).1.fs.writes,
        e ∈ st.fs.writes ∨ hasJavaExt e.1 = true) ∧
      (∀ l ∈ (processFiles flag ps st).1.progress,
        l ∈ st.progress ∨ ∃ q, hasJavaExt q = true ∧ l = "Processed " ++ q) ∧
      (∀ r, hasJavaExt r = false →
        readFile (processFiles flag ps st).1.fs r = readFile st.fs r)
  | [], st =>
      ⟨rfl, fun _ he => Or.inl he, fun _ hl => Or.inl hl, fun _ _ => rfl⟩
  | q :: ps, st => by
    by_cases hqj : hasJavaExt q = true
    · cases hop : removeAnnotationsOp q flag st.fs with
      | mk fs' err =>
        cases err with
        | none =>
            obtain ⟨cq, hcq, hca, hfs⟩ := removeAnnotationsOp_success q flag st.fs fs' hop
            subst hfs
            have step : processFiles flag (q :: ps) st
                = processFiles flag ps
                    ⟨writeFile st.fs q (transform flag cq), st.counters,
                      st.progress ++ ["Processed " ++ q]⟩ := by
              rw [processFiles, if_pos hqj, hop]
            rw [step]
            have ih := processFiles_frame flag ps
              ⟨writeFile st.fs q (transform flag cq), st.counters,
                st.progress ++ ["Processed " ++ q]⟩
            refine ⟨ih.1, ?_, ?_, ?_⟩
            · intro e he
              rcases ih.2.1 e he with h1 | h1
              · rcases List.mem_cons.mp h1 with h2 | h2
                · right
                  rw [h2]
                  exact hqj
                · exact Or.inl h2
              · exact Or.inr h1
            · intro l hl
              rcases ih.2.2.1 l hl with h1 | h1
              · rcases List.mem_append.mp h1 with h2 | h2
                · exact Or.inl h2
                · exact Or.inr ⟨q, hqj, List.mem_singleton.mp h2⟩
              · exact Or.inr h1
            · intro r hr
              have hrq : r ≠ q := by
                intro he
                rw [he, hqj] at hr
                exact absurd hr (by decide)
              rw [ih.2.2.2 r hr]
              exact readFile_writeFile_ne st.fs q r _ hrq
        | some e =>
            have hfs : fs' = st.fs := removeAnnotationsOp_failure q flag st.fs fs' e hop
            subst hfs
            have step : processFiles flag (q :: ps) st
                = (⟨st.fs, st.counters, st.progress⟩, some e) := by
              rw [processFiles, if_pos hqj, hop]
            rw [step]
            exact ⟨rfl, fun _ he => Or.inl he, fun _ hl => Or.inl hl, fun _ _ => rfl⟩
    · have step : processFiles flag (q :: ps) st = processFiles flag ps st := by
        rw [processFiles, if_neg (by simp [hqj])]
      rw [step]
      exact processFiles_frame flag ps st

/-- Claim C7: the traversal processes exactly the files whose name ends in
`.java`: a non-matching file's stored content is never changed, it is
never opened for writing (no write-log entry carries its path), no
progress line is printed for it, and the run-wide counters receive
nothing from it (they end the run at their initial zeros). -/
theorem c7_non_java_untouched (flag : Bool) (fs : FS) (p : String)
    (h : hasJavaExt p = false) (hw : fs.writes = []) :
    readFile (mainRun flag fs).state.fs p = readFile fs p ∧
    (∀ e ∈ (mainRun flag fs).state.fs.writes, e.1 ≠ p) ∧
    ("Processed " ++ p) ∉ (mainRun flag fs).state.progress ∧
    (mainRun flag fs).state.counters = initCounters := by
  have hf := processFiles_frame flag (fs.files.map (fun e => e.1)) ⟨fs, initCounters, []⟩
  refine ⟨?_, ?_, ?_, ?_⟩
  · simp only [mainRun]
    exact hf.2.2.2 p h
  · simp only [mainRun]
    intro e he
    rcases hf.2.1 e he with h1 | h1
    · rw [hw] at h1
      exact absurd h1 (List.not_mem_nil e)
    · intro hep
      rw [hep, h] at h1
      exact absurd h1 (by decide)
  · simp only [mainRun]
    intro hmem
    rcases hf.2.2.1 _ hmem with h1 | h1
    · exact absurd h1 (List.not_mem_nil _)
    · obtain ⟨q, hq, he⟩ := h1
      have hqp : q = p := string_append_left_cancel "Processed " q p he.symm
      rw [hqp, h] at hq
      exact absurd hq (by decide)
  · simp only [mainRun]
    exact hf.1

/-- Witness for C7: a run over a filesystem holding `notes.txt` leaves that
file alone and prints no line for it. -/
theorem c7_witness :
    hasJavaExt "notes.txt" = false ∧
    readFile (mainRun false ⟨[("notes.txt", cleanText)], []⟩).state.fs "notes.txt"
      = readFile ⟨[("notes.txt", cleanText)], []⟩ "notes.txt" ∧
    ("Processed " ++ "notes.txt")
      ∉ (mainRun false ⟨[("notes.txt", cleanText)], []⟩).state.progress :=
  ⟨by decide,
    (c7_non_java_untouched false ⟨[("notes.txt", cleanText)], []⟩ "notes.txt"
      (by decide) rfl).1,
    (c7_non_java_untouched false ⟨[("notes.txt", cleanText)], []⟩ "notes.txt"
      (by decide) rfl).2.2.1⟩

/-- Claim C6: on text with zero occurrences of every target pattern the
transformation is the identity and every count captured at substitution
time is zero; applying it again to such already-clean text is therefore
also a no-op with all-zero counts. -/
theorem c6_clean_text_unchanged (flag : Bool) (T : List Char)
    (h1 : countWordAnnot nullableName T = 0)
    (h2 : countWordAnnot nonNullName T = 0)
    (h3 : countWordAnnot nonnullStrictName T = 0)
    (h4 : countWordAnnot notnullName T = 0)
    (h5 : countWordAnnot notNullStrictName T = 0)
    (h6 : countWordAnnot monotonicNonNullName T = 0)
    (h7 : flag = true → countSW T = 0) :
    transform flag T = T ∧ countsOf flag T = initCounters := by
  have e1 : subWordAnnot nullableName T = T := subWA_of_count0 _ _ h1
  have e2 : subWordAnnot nonNullName T = T := subWA_of_count0 _ _ h2
  have e3 : subWordAnnot nonnullStrictName T = T := subWA_of_count0 _ _ h3
  have e4 : subWordAnnot notnullName T = T := subWA_of_count0 _ _ h4
  have e5 : subWordAnnot notNullStrictName T = T := subWA_of_count0 _ _ h5
  have e6 : subWordAnnot monotonicNonNullName T = T := subWA_of_count0 _ _ h6
  constructor
  · simp only [transform]
    rw [e1, e2, e3, e4, e5, e6]
    cases flag with
    | false => rfl
    | true =>
        rw [if_pos rfl]
        exact subSW_of_count0 T (h7 rfl)
  · simp only [countsOf]
    rw [e1, e2, e3, e4, e5, e6, h1, h2, h3, h4, h5, h6]
    cases flag with
    | false => rfl
    | true =>
        rw [if_pos rfl, h7 rfl]
        rfl

/-- Witness for C6 on annotation-free text, with the flag set. -/
theorem c6_witness :
    countWordAnnot nullableName cleanText = 0 ∧
    countSW cleanText = 0 ∧
    transform true cleanText = cleanText ∧
    countsOf true cleanText = initCounters :=
  ⟨by simp [countWordAnnot, cleanText, nullableName, wordMatches, boundaryOk,
      isWordChar, List.isPrefixOf],
   by simp [countSW, cleanText, swLit, List.isPrefixOf, findClose],
   (c6_clean_text_unchanged true cleanText
      (by simp [countWordAnnot, cleanText, nullableName, wordMatches, boundaryOk,
        isWordChar, List.isPrefixOf])
      (by simp [countWordAnnot, cleanText, nonNullName, wordMatches, boundaryOk,
        isWordChar, List.isPrefixOf])
      (by simp [countWordAnnot, cleanText, nonnullStrictName, wordMatches, boundaryOk,
        isWordChar, List.isPrefixOf])
      (by simp [countWordAnnot, cleanText, notnullName, wordMatches, boundaryOk,
        isWordChar, List.isPrefixOf])
      (by simp [countWordAnnot, cleanText, notNullStrictName, wordMatches, boundaryOk,
        isWordChar, List.isPrefixOf])
      (by simp [countWordAnnot, cleanText, monotonicNonNullName, wordMatches, boundaryOk,
        isWordChar, List.isPrefixOf])
      (fun _ => by simp [countSW, cleanText, swLit, List.isPrefixOf, findClose])).1,
   (c6_clean_text_unchanged true cleanText
      (by simp [countWordAnnot, cleanText, nullableName, wordMatches, boundaryOk,
        isWordChar, List.isPrefixOf])
      (by simp [countWordAnnot, cleanText, nonNullName, wordMatches, boundaryOk,
        isWordChar, List.isPrefixOf])
      (by simp [countWordAnnot, cleanText, nonnullStrictName, wordMatches, boundaryOk,
        isWordChar, List.isPrefixOf])
      (by simp [countWordAnnot, cleanText, notnullName, wordMatches, boundaryOk,
        isWordChar, List.isPrefixOf])
      (by simp [countWordAnnot, cleanText, notNullStrictName, wordMatches, boundaryOk,
        isWordChar, List.isPrefixOf])
      (by simp [countWordAnnot, cleanText, monotonicNonNullName, wordMatches, boundaryOk,
        isWordChar, List.isPrefixOf])
      (fun _ => by simp [countSW, cleanText, swLit, List.isPrefixOf, findClose])).2⟩

/-- Witness for C4: a body `foo(bar` with a nested `(` and no `)`; the match
stops at the first `)`, leaving the second `)` in the text. -/
theorem c4_witness :
    ("foo(bar".toList.all (fun c => c != ')') = true) ∧
    subSW ('@' :: ("SuppressWarnings".toList
        ++ ('(' :: ("foo(bar".toList ++ ')' :: ") x".toList))))
      = subSW ") x".toList :=
  ⟨by decide,
    c4_sw_match_ends_at_first_close "foo(bar".toList ") x".toList (by decide)⟩

/-- Witness for C10: `@SuppressWarnings` followed by a space survives. -/
theorem c10_witness :
    (" void f();".toList.head? = some ' ') ∧
    subSW ('@' :: ("SuppressWarnings".toList ++ " void f();".toList))
      = '@' :: ("SuppressWarnings".toList ++ subSW " void f();".toList) :=
  ⟨by decide,
    c10_bare_suppress_warnings_kept " void f();".toList
      (fun c hc => by
        rw [show " void f();".toList.head? = some ' ' from rfl] at hc
        cases hc
        decide)⟩

/-- Claim C1 fails on the code (code bug): for the file `@Nullable x` the
single occurrence is removed from the text (one match is found at
substitution time and the output has none), but the run's reported
Nullable count is 0, not 1 — the script's counters are declared and
printed yet never incremented. -/
theorem c1_count_never_reported :
    countWordAnnot nullableName nullableText = 1 ∧
    transform false nullableText = " x".toList ∧
    countWordAnnot nullableName (transform false nullableText) = 0 ∧
    (mainRun false fsNullable).summary = some ⟨0, 0, 0, 0, 0, 0, none⟩ := by
  have hcnt : countWordAnnot nullableName nullableText = 1 := by
    simp [countWordAnnot, nullableText, nullableName, wordMatches, boundaryOk,
      isWordChar, List.isPrefixOf]
  have ht : transform false nullableText = " x".toList := by
    simp [transform, subWordAnnot, nullableText, nullableName, nonNullName,
      nonnullStrictName, notnullName, notNullStrictName, monotonicNonNullName,
      wordMatches, boundaryOk, isWordChar, List.isPrefixOf]
  have hj : hasJavaExt "A.java" = true := by decide
  have hrd : readFile fsNullable "A.java" = some nullableText := by decide
  have ha : nullableText.all (fun c => c.toNat < 128) = true := by decide
  refine ⟨hcnt, ht, ?_, ?_⟩
  · rw [ht]
    simp [countWordAnnot, nullableName, wordMatches, boundaryOk,
      isWordChar, List.isPrefixOf]
  · decide

/-- Claim C3 fails on the code (code bug): the flag gates the removal
exactly as claimed — flag off leaves the text unchanged and reports no
SuppressWarnings line; flag on removes the span, producing
` void f() {}`, and exactly one match is found at substitution time —
but the reported SuppressWarnings count is 0, not 1, because the
counters are never incremented. -/
theorem c3_flag_gates_removal :
    transform false swText = swText ∧
    (mainRun false fsSW).summary = some ⟨0, 0, 0, 0, 0, 0, none⟩ ∧
    transform true swText = " void f() \x7b\x7d".toList ∧
    countsOf true swText = ⟨0, 0, 0, 0, 0, 0, 1⟩ ∧
    (mainRun true fsSW).summary = some ⟨0, 0, 0, 0, 0, 0, some 0⟩ := by
  have hj : hasJavaExt "A.java" = true := by decide
  have hrd : readFile fsSW "A.java" = some swText := by decide
  have ha : swText.all (fun c => c.toNat < 128) = true := by decide
  refine ⟨?_, ?_, ?_, ?_, ?_⟩
  · simp [transform, subWordAnnot, swText, nullableName, nonNullName,
      nonnullStrictName, notnullName, notNullStrictName, monotonicNonNullName,
      wordMatches, boundaryOk, isWordChar, List.isPrefixOf]
  · decide
  · simp [transform, subWordAnnot, subSW, swText, nullableName, nonNullName,
      nonnullStrictName, notnullName, notNullStrictName, monotonicNonNullName,
      wordMatches, boundaryOk, isWordChar, List.isPrefixOf, swLit, findClose]
  · simp [countsOf, countWordAnnot, countSW, subWordAnnot, swText,
      nullableName, nonNullName, nonnullStrictName, notnullName,
      notNullStrictName, monotonicNonNullName, wordMatches, boundaryOk,
      isWordChar, List.isPrefixOf, swLit, findClose]
  · decide

/-- Claim C5 fails on the code (code bug): matching is exact-case and
word-bounded — each of the four variants yields exactly one match at
substitution time, and `NonNull` never matches inside `@NonNullable` —
but the run's reported counters stay all-zero instead of the four 1s the
claim requires, because the script never increments them. -/
theorem c5_case_variants_not_counted :
    countsOf false caseText = ⟨0, 1, 1, 1, 1, 0, 0⟩ ∧
    countWordAnnot nonNullName "@NonNullable".toList = 0 ∧
    (mainRun false fsCase).summary = some ⟨0, 0, 0, 0, 0, 0, none⟩ := by
  have hj : hasJavaExt "A.java" = true := by decide
  have hrd : readFile fsCase "A.java" = some caseText := by decide
  have ha : caseText.all (fun c => c.toNat < 128) = true := by decide
  refine ⟨?_, ?_, ?_⟩
  · simp [countsOf, countWordAnnot, countSW, subWordAnnot, caseText,
      nullableName, nonNullName, nonnullStrictName, notnullName,
      notNullStrictName, monotonicNonNullName, wordMatches, boundaryOk,
      isWordChar, List.isPrefixOf]
  · simp [countWordAnnot, nonNullName, wordMatches, boundaryOk,
      isWordChar, List.isPrefixOf]
  · decide

/-- Counterexample to claim C8 as stated: `remove_annotations` does have a
storage side effect — called on a concrete filesystem it returns a
different filesystem (the file was overwritten and the write logged), so
the write is not left to the caller. -/
theorem c8_counterexample :
    (removeAnnotationsOp "A.java" false fsNullable).1 ≠ fsNullable := by
  intro h
  have hw : (removeAnnotationsOp "A.java" false fsNullable).1.writes.length
      = fsNullable.writes.length := congrArg (fun z => z.writes.length) h
  exact absurd hw (by decide)

/-- Claim C8 (amended): the write is performed by `remove_annotations`
itself, not by its caller: on success the call returns exactly the
filesystem obtained by overwriting the file with the transformed
content, together with no exception. -/
theorem c8_amended_stripper_writes (p : String) (flag : Bool) (fs : FS)
    (content : List Char)
    (hread : readFile fs p = some content)
    (hascii : content.all (fun c => c.toNat < 128) = true) :
    removeAnnotationsOp p flag fs = (writeFile fs p (transform flag content), none) := by
  simp [removeAnnotationsOp, hread, hascii]

/-- Witness for the amended C8 on the `@Nullable x` file. -/
theorem c8_witness :
    readFile fsNullable "A.java" = some nullableText ∧
    nullableText.all (fun c => c.toNat < 128) = true ∧
    removeAnnotationsOp "A.java" false fsNullable
      = (writeFile fsNullable "A.java" (transform false nullableText), none) :=
  ⟨by decide, by decide,
    c8_amended_stripper_writes "A.java" false fsNullable nullableText
      (by decide) (by decide)⟩

/-- Claim C9: a selected file is rewritten unconditionally: even when the
transformed content is identical to the original, the call still opens
the file for writing and logs a write of that identical content, and it
raises nothing. -/
theorem c9_write_even_if_unchanged (p : String) (flag : Bool) (fs : FS)
    (content : List Char)
    (hread : readFile fs p = some content)
    (hascii : content.all (fun c => c.toNat < 128) = true)
    (hnoop : transform flag content = content) :
    (removeAnnotationsOp p flag fs).2 = none ∧
    (removeAnnotationsOp p flag fs).1.writes = (p, content) :: fs.writes := by
  constructor
  · simp [removeAnnotationsOp, hread, hascii]
  · simp [removeAnnotationsOp, hread, hascii, writeFile, hnoop]

/-- Witness for C9: annotation-free `class A {int x;}` is written back
byte-identical. -/
theorem c9_witness :
    readFile fsClean "A.java" = some cleanText ∧
    transform false cleanText = cleanText ∧
    (removeAnnotationsOp "A.java" false fsClean).1.writes
      = [("A.java", cleanText)] := by
  have hnoop : transform false cleanText = cleanText := by
    simp [transform, subWordAnnot, cleanText, nullableName, nonNullName,
      nonnullStrictName, notnullName, notNullStrictName, monotonicNonNullName,
      wordMatches, boundaryOk, isWordChar, List.isPrefixOf]
  exact ⟨by decide, hnoop,
    (c9_write_even_if_unchanged "A.java" false fsClean cleanText
      (by decide) (by decide) hnoop).2⟩

end RemoveAnnotations
